import Mathlib

/-!
Verification development for the grpc.ts.middleware repository.

The repository consists of a single class, GrpcMiddleware, which wraps every
method of a registered gRPC service in a proxy that

  1. runs a list of pre-call handlers in order (src/src/index.ts, proxyCall),
  2. invokes the real implementation with a substituted completion callback,
  3. on completion (or on a caught exception) runs post-call processing
     (src/src/index.ts, postCall): post-call handlers in order, an optional
     tracing-header relay (propagateTracingHeaders), and the original callback.

The shallow embedding below models one proxied call as a deterministic
interpreter that produces the list of observable events of the call
(handler invocations, implementation start, metadata sends, original
callback invocation) together with the exception, if any, escaping from
the proxy to its caller.  Handlers are modelled by their observable
behaviour: whether they return normally or throw.  The implementation is
modelled by the list of completion results it passes to its callback,
followed by either a normal return or a thrown error, covering both the
synchronous-throw paths and the completed-callback paths of the source.
-/

namespace GrpcTsMiddleware

/-- Errors are opaque; we identify them by a natural number. -/
abbrev Err := Nat

/-- Model of grpc.Metadata: an association of header keys to their lists of
string values, as exposed by getMap / get in the source. -/
structure Metadata where
  entries : List (String × List String)
deriving DecidableEq, Repr

/-- The four arguments of the gRPC completion callback in the source:
(error, value, trailer, flags).  A value of none models null/undefined. -/
structure CallResult where
  error : Option Err
  value : Option Nat
  trailer : Option Metadata
  flags : Option Nat
deriving DecidableEq, Repr

/-- Model of the gRPC call object as used by the middleware: its inbound
metadata (none models an undefined call.metadata), and whether the
call.sendMetadata operation throws when invoked. -/
structure Call where
  metadata : Option Metadata
  sendFails : Bool
deriving DecidableEq, Repr

/-- A pre-call handler, modelled by its observable behaviour on the call:
none means it returns normally, some e means it throws error e. -/
structure PreHandler where
  throws : Option Err

/-- A post-call handler, modelled by its observable behaviour: it receives
the error argument of the call result, and either returns normally (none)
or throws (some e). -/
structure PostHandler where
  throws : Option Err → Option Err

/-- Behaviour of the real method implementation for one call: the list of
results it passes to its (substituted) completion callback, synchronously
and in order, followed by either a normal return (finalThrow = none) or a
thrown error (finalThrow = some e). -/
structure ImplBehavior where
  actions : List CallResult
  finalThrow : Option Err
deriving DecidableEq, Repr

/-- Observable events of one proxied call, in order of occurrence.
preHandler i: the i-th pre-call handler was invoked.
implStart: the real implementation was invoked.
postStart err v: post-call processing (the postCall method) was entered
with the given error and value.
postHandler i err: the i-th post-call handler was invoked with err.
sendMetadata md: call.sendMetadata was invoked with outbound metadata md.
origCallback r: the original completion callback was invoked with r. -/
inductive Event where
  | preHandler (i : Nat)
  | implStart
  | postStart (error : Option Err) (value : Option Nat)
  | postHandler (i : Nat) (error : Option Err)
  | sendMetadata (md : Metadata)
  | origCallback (r : CallResult)
deriving DecidableEq, Repr

/-- Dispatcher state: the two optional handler lists given to the
constructor and the tracing flag (tracingEnabled?: boolean, so the
undefined initial state is modelled as false). -/
structure GrpcMiddleware where
  preMiddleware : Option (List PreHandler)
  postMiddleware : Option (List PostHandler)
  tracingEnabled : Bool

/-- The constructor: stores the handler lists; tracingEnabled is left
undefined, i.e. false. -/
def mkGrpcMiddleware (pre : Option (List PreHandler))
    (post : Option (List PostHandler)) : GrpcMiddleware :=
  ⟨pre, post, false⟩

/-- The enableTracing method: sets the tracing flag to true. -/
def enableTracing (mw : GrpcMiddleware) : GrpcMiddleware :=
  { mw with tracingEnabled := true }

/-- The keys of the compiled tracingHeaders enum object, in the order
Object.keys enumerates them.  tracingHeaders is declared in the source as a
TypeScript numeric enum with string member names and no initializers
(src/src/index.ts lines 35-43); TypeScript compiles such an enum to an
object holding both the forward entries (name to number) and the reverse
entries (number to name), so Object.keys(tracingHeaders) yields the numeric
reverse-mapping keys "0".."6" (integer-like keys first, in ascending order)
followed by the seven member names in declaration order. -/
def objectKeysTracingHeaders : List String :=
  ["0", "1", "2", "3", "4", "5", "6",
   "x-forwarded-for", "x-forwarded-proto", "x-request-id", "x-envoy-internal",
   "x-b3-traceid", "x-b3-spanid", "x-b3-sampled"]

/-- Modelled from the spec: the allow-list of the seven tracing header
names the specification says are the only keys ever relayed.  Used only to
compare the behaviour of the code against the specification. -/
def sevenTracingHeaderNames : List String :=
  ["x-forwarded-for", "x-forwarded-proto", "x-request-id", "x-envoy-internal",
   "x-b3-traceid", "x-b3-spanid", "x-b3-sampled"]

/-- The loop body of propagateTracingHeaders: iterate over the inbound
metadata entries; for each key matched by the filter over
Object.keys(tracingHeaders), set the first value under that key into the
fresh outbound metadata.  Returns none when the loop throws, which in the
source happens exactly when metadata.get(key)[0] is undefined (an entry
with an empty value list), making newMetadata.set throw. -/
def relayEntries : List (String × List String) → Option (List (String × List String))
  | [] => some []
  | (k, vs) :: rest =>
    if 1 ≤ (objectKeysTracingHeaders.filter (fun h => h = k)).length then
      match vs with
      | [] => none
      | v :: _ => (relayEntries rest).map (fun acc => (k, [v]) :: acc)
    else relayEntries rest

/-- The propagateTracingHeaders method, as the list of events it produces.
If call.metadata is absent nothing happens; otherwise the outbound
metadata is built by relayEntries and, when that succeeds, sendMetadata is
invoked (the event is emitted at the point of invocation, whether or not
the send itself then throws).  All exceptions are caught and suppressed,
so the method never throws to its caller. -/
def propagateTracingHeaders (call : Call) : List Event :=
  match call.metadata with
  | none => []
  | some md =>
    match relayEntries md.entries with
    | none => []
    | some pairs => [Event.sendMetadata ⟨pairs⟩]

/-- Whether an exception is raised (and then suppressed) inside the try
block of propagateTracingHeaders: either building the outbound metadata
throws, or the sendMetadata call itself fails. -/
def relayRaises (call : Call) : Bool :=
  match call.metadata with
  | none => false
  | some md =>
    match relayEntries md.entries with
    | none => true
    | some _ => call.sendFails

/-- The pre-call middleware loop of proxyCall: run the handlers in order
starting at index i; stop at the first one that throws.  Returns the
events and the thrown error, if any. -/
def runPre : List PreHandler → Nat → List Event × Option Err
  | [], _ => ([], none)
  | h :: rest, i =>
    match h.throws with
    | some e => ([Event.preHandler i], some e)
    | none =>
      match runPre rest (i + 1) with
      | (evs, exc) => (Event.preHandler i :: evs, exc)

/-- The post-call middleware loop of postCall: run the handlers in order
starting at index i, each receiving the error of the call result; stop at
the first one that throws. -/
def runPostHandlers : List PostHandler → Option Err → Nat → List Event × Option Err
  | [], _, _ => ([], none)
  | h :: rest, err, i =>
    match h.throws err with
    | some e => ([Event.postHandler i err], some e)
    | none =>
      match runPostHandlers rest err (i + 1) with
      | (evs, exc) => (Event.postHandler i err :: evs, exc)

/-- The postCall method: run the post-call handlers in order; if none
throws, run the tracing relay when enabled, then invoke the original
callback (when present) with the call result exactly as received.  The
second component is the exception escaping from postCall, which can only
come from a post-call handler. -/
def postCall (mw : GrpcMiddleware) (call : Call) (cbPresent : Bool)
    (res : CallResult) : List Event × Option Err :=
  match runPostHandlers (mw.postMiddleware.getD []) res.error 0 with
  | (evs, some e) => (Event.postStart res.error res.value :: evs, some e)
  | (evs, none) =>
    (Event.postStart res.error res.value ::
      (evs ++ (if mw.tracingEnabled then propagateTracingHeaders call else [])
        ++ (if cbPresent then [Event.origCallback res] else [])), none)

/-- The substituted completion callback, applied to each result the
implementation passes synchronously: each invocation sets the
postCallInvoked latch and runs postCall.  Returns the events, the final
value of the latch, and the exception propagating out of the
implementation body, if any (an exception thrown by postCall interrupts
the implementation, so later invocations never happen). -/
def runCallbacks (mw : GrpcMiddleware) (call : Call) (cbPresent : Bool) :
    List CallResult → List Event × Bool × Option Err
  | [] => ([], false, none)
  | r :: rest =>
    match postCall mw call cbPresent r with
    | (evs, some e) => (evs, true, some e)
    | (evs, none) =>
      match runCallbacks mw call cbPresent rest with
      | (evs2, _, exc) => (evs ++ evs2, true, exc)

/-- The proxyCall method: run the pre-call handlers inside the try block;
if none throws, invoke the implementation with the substituted callback.
Any exception reaching the catch block (from a pre-call handler, from a
postCall run by the substituted callback, or thrown by the implementation
body itself) triggers the catch: if the latch is still false, postCall
runs with the caught error and a null value, and whatever that postCall
throws escapes to the caller; if the latch is already true the exception
is swallowed.  The second component is the exception escaping proxyCall. -/
def proxyCall (mw : GrpcMiddleware) (call : Call) (cbPresent : Bool)
    (impl : ImplBehavior) : List Event × Option Err :=
  match runPre (mw.preMiddleware.getD []) 0 with
  | (preEvs, some e) =>
    match postCall mw call cbPresent ⟨some e, none, none, none⟩ with
    | (pEvs, pExc) => (preEvs ++ pEvs, pExc)
  | (preEvs, none) =>
    match runCallbacks mw call cbPresent impl.actions with
    | (bodyEvs, _, some _) => (preEvs ++ Event.implStart :: bodyEvs, none)
    | (bodyEvs, invoked, none) =>
      match impl.finalThrow with
      | none => (preEvs ++ Event.implStart :: bodyEvs, none)
      | some e =>
        if invoked then (preEvs ++ Event.implStart :: bodyEvs, none)
        else
          match postCall mw call cbPresent ⟨some e, none, none, none⟩ with
          | (pEvs, pExc) => (preEvs ++ Event.implStart :: bodyEvs ++ pEvs, pExc)

/-- Index and error of the first pre-call handler that throws, if any. -/
def firstThrow : List PreHandler → Option (Nat × Err)
  | [] => none
  | h :: rest =>
    match h.throws with
    | some e => some (0, e)
    | none => (firstThrow rest).map (fun p => (p.1 + 1, p.2))

/-- Index and error of the first post-call handler that throws when run
with the given error argument, if any. -/
def firstThrowPost : List PostHandler → Option Err → Option (Nat × Err)
  | [], _ => none
  | h :: rest, err =>
    match h.throws err with
    | some e => some (0, e)
    | none => (firstThrowPost rest err).map (fun p => (p.1 + 1, p.2))

/-- Number of pre-call handlers that actually run: up to and including the
first throwing one, or all of them. -/
def preStopLen (hs : List PreHandler) : Nat :=
  match firstThrow hs with
  | some p => p.1 + 1
  | none => hs.length

/-- Number of post-call handlers that actually run with the given error. -/
def postStopLen (hs : List PostHandler) (err : Option Err) : Nat :=
  match firstThrowPost hs err with
  | some p => p.1 + 1
  | none => hs.length

/-- Event classifier: is this a postStart event. -/
def Event.isPostStart : Event → Bool
  | .postStart _ _ => true
  | _ => false

/-- Event classifier: is this a sendMetadata event. -/
def Event.isSendMetadata : Event → Bool
  | .sendMetadata _ => true
  | _ => false

/-- Event classifier: is this an origCallback event. -/
def Event.isOrigCallback : Event → Bool
  | .origCallback _ => true
  | _ => false

/-- Event classifier: is this a preHandler event. -/
def Event.isPreHandler : Event → Bool
  | .preHandler _ => true
  | _ => false

/-- Number of times post-call processing (postCall) was entered. -/
def countPostStarts (evs : List Event) : Nat :=
  (evs.filter Event.isPostStart).length

/-- Shifting a range of preHandler events by one index. -/
theorem preHandler_range_succ (L i : Nat) :
    (List.range (L + 1)).map (fun j => Event.preHandler (i + j)) =
      Event.preHandler i :: (List.range L).map (fun j => Event.preHandler (i + 1 + j)) := by
  rw [List.range_succ_eq_map, List.map_cons, List.map_map]
  have h : ((fun j => Event.preHandler (i + j)) ∘ Nat.succ) =
      (fun j => Event.preHandler (i + 1 + j)) := by
    funext a
    have ha : i + Nat.succ a = i + 1 + a := by omega
    simp [Function.comp, ha]
  rw [h]
  simp

/-- Shifting a range of postHandler events by one index. -/
theorem postHandler_range_succ (L i : Nat) (err : Option Err) :
    (List.range (L + 1)).map (fun j => Event.postHandler (i + j) err) =
      Event.postHandler i err ::
        (List.range L).map (fun j => Event.postHandler (i + 1 + j) err) := by
  rw [List.range_succ_eq_map, List.map_cons, List.map_map]
  have h : ((fun j => Event.postHandler (i + j) err) ∘ Nat.succ) =
      (fun j => Event.postHandler (i + 1 + j) err) := by
    funext a
    have ha : i + Nat.succ a = i + 1 + a := by omega
    simp [Function.comp, ha]
  rw [h]
  simp

/-- Characterization of the pre-call middleware loop: the handlers up to
and including the first throwing one run, in index order, and the loop
result is the error of the first throwing handler, if any. -/
theorem runPre_char (hs : List PreHandler) (i : Nat) :
    runPre hs i =
      ((List.range (preStopLen hs)).map (fun j => Event.preHandler (i + j)),
        (firstThrow hs).map Prod.snd) := by
  induction hs generalizing i with
  | nil => simp [runPre, preStopLen, firstThrow]
  | cons h rest ih =>
    cases hth : h.throws with
    | some e => simp [runPre, hth, preStopLen, firstThrow, List.range_succ]
    | none =>
      have hft : firstThrow (h :: rest) = (firstThrow rest).map (fun p => (p.1 + 1, p.2)) := by
        simp [firstThrow, hth]
      have hlen : preStopLen (h :: rest) = preStopLen rest + 1 := by
        unfold preStopLen
        rw [hft]
        cases firstThrow rest <;> simp
      simp only [runPre, hth, ih]
      rw [hlen, preHandler_range_succ, hft]
      cases firstThrow rest <;> simp

/-- Characterization of the post-call middleware loop, analogous to
runPre_char. -/
theorem runPost_char (hs : List PostHandler) (err : Option Err) (i : Nat) :
    runPostHandlers hs err i =
      ((List.range (postStopLen hs err)).map (fun j => Event.postHandler (i + j) err),
        (firstThrowPost hs err).map Prod.snd) := by
  induction hs generalizing i with
  | nil => simp [runPostHandlers, postStopLen, firstThrowPost]
  | cons h rest ih =>
    cases hth : h.throws err with
    | some e => simp [runPostHandlers, hth, postStopLen, firstThrowPost, List.range_succ]
    | none =>
      have hft : firstThrowPost (h :: rest) err =
          (firstThrowPost rest err).map (fun p => (p.1 + 1, p.2)) := by
        simp [firstThrowPost, hth]
      have hlen : postStopLen (h :: rest) err = postStopLen rest err + 1 := by
        unfold postStopLen
        rw [hft]
        cases firstThrowPost rest err <;> simp
      simp only [runPostHandlers, hth, ih]
      rw [hlen, postHandler_range_succ, hft]
      cases firstThrowPost rest err <;> simp

/-- postCall when no post-call handler throws: every handler runs in
order, then the tracing relay when enabled, then the original callback
with the unmodified result; no exception escapes. -/
theorem postCall_ok (mw : GrpcMiddleware) (call : Call) (cb : Bool) (r : CallResult)
    (hft : firstThrowPost (mw.postMiddleware.getD []) r.error = none) :
    postCall mw call cb r =
      (Event.postStart r.error r.value ::
        ((List.range (mw.postMiddleware.getD []).length).map
            (fun j => Event.postHandler j r.error)
          ++ (if mw.tracingEnabled then propagateTracingHeaders call else [])
          ++ (if cb then [Event.origCallback r] else [])), none) := by
  unfold postCall
  rw [runPost_char, hft]
  simp [postStopLen, hft]

/-- postCall when some post-call handler throws: the handlers up to and
including the throwing one run, nothing after them runs (no tracing relay,
no original callback), and the thrown error escapes from postCall. -/
theorem postCall_throw (mw : GrpcMiddleware) (call : Call) (cb : Bool) (r : CallResult)
    (p : Nat × Err)
    (hft : firstThrowPost (mw.postMiddleware.getD []) r.error = some p) :
    postCall mw call cb r =
      (Event.postStart r.error r.value ::
        (List.range (p.1 + 1)).map (fun j => Event.postHandler j r.error), some p.2) := by
  unfold postCall
  rw [runPost_char, hft]
  simp [postStopLen, hft]

/-- Membership in a conditional list with an empty alternative implies
membership in the list. -/
theorem mem_ite_nil {c : Bool} {l : List Event} {ev : Event}
    (h : ev ∈ if c then l else []) : ev ∈ l := by
  cases c
  · simp at h
  · simpa using h

/-- Every event of the tracing relay is a sendMetadata event. -/
theorem propagate_shape (call : Call) :
    ∀ ev ∈ propagateTracingHeaders call, ∃ md, ev = Event.sendMetadata md := by
  intro ev hev
  unfold propagateTracingHeaders at hev
  rcases hmd : call.metadata with _ | md
  · rw [hmd] at hev
    simp at hev
  · rw [hmd] at hev
    simp at hev
    rcases hre : relayEntries md.entries with _ | pairs
    · rw [hre] at hev
      simp at hev
    · rw [hre] at hev
      simp at hev
      exact ⟨_, hev⟩

/-- Structure of the events of one postCall pass: a single postStart head
carrying the error and value of the pass, followed only by postHandler
events (carrying the error of the pass), sendMetadata events, and
origCallback events carrying the unmodified result. -/
theorem postCall_decomp (mw : GrpcMiddleware) (call : Call) (cb : Bool) (r : CallResult) :
    ∃ tl, (postCall mw call cb r).1 = Event.postStart r.error r.value :: tl ∧
      ∀ ev ∈ tl, (∃ j, ev = Event.postHandler j r.error) ∨
        (∃ md, ev = Event.sendMetadata md) ∨ ev = Event.origCallback r := by
  cases hft : firstThrowPost (mw.postMiddleware.getD []) r.error with
  | some p =>
    rw [postCall_throw mw call cb r p hft]
    refine ⟨_, rfl, ?_⟩
    intro ev hev
    obtain ⟨j, _, rfl⟩ := List.mem_map.1 hev
    exact Or.inl ⟨j, rfl⟩
  | none =>
    rw [postCall_ok mw call cb r hft]
    refine ⟨_, rfl, ?_⟩
    intro ev hev
    rcases List.mem_append.1 hev with hev | hev
    · rcases List.mem_append.1 hev with hev | hev
      · obtain ⟨j, _, rfl⟩ := List.mem_map.1 hev
        exact Or.inl ⟨j, rfl⟩
      · obtain ⟨md, rfl⟩ := propagate_shape call ev (mem_ite_nil hev)
        exact Or.inr (Or.inl ⟨md, rfl⟩)
    · have hev' := mem_ite_nil hev
      simp at hev'
      exact Or.inr (Or.inr hev')

/-- countPostStarts distributes over append. -/
theorem countPostStarts_append (a b : List Event) :
    countPostStarts (a ++ b) = countPostStarts a + countPostStarts b := by
  simp [countPostStarts, List.filter_append]

/-- Prepending a non-postStart event leaves the postStart count unchanged. -/
theorem countPostStarts_cons_ne (ev : Event) (evs : List Event)
    (h : ev.isPostStart = false) :
    countPostStarts (ev :: evs) = countPostStarts evs := by
  simp [countPostStarts, List.filter_cons, h]

/-- Prepending a postStart event increments the postStart count. -/
theorem countPostStarts_cons_postStart (e : Option Err) (v : Option Nat) (evs : List Event) :
    countPostStarts (Event.postStart e v :: evs) = countPostStarts evs + 1 := by
  simp [countPostStarts, List.filter_cons, Event.isPostStart]

/-- A list without postStart events has postStart count zero. -/
theorem countPostStarts_eq_zero {evs : List Event}
    (h : ∀ ev ∈ evs, ev.isPostStart = false) : countPostStarts evs = 0 := by
  induction evs with
  | nil => rfl
  | cons x xs ih =>
    rw [countPostStarts_cons_ne x xs (h x (List.mem_cons_self x xs))]
    exact ih fun ev hev => h ev (List.mem_cons_of_mem x hev)

/-- Each postCall pass enters post-call processing exactly once. -/
theorem countPostStarts_postCall (mw : GrpcMiddleware) (call : Call) (cb : Bool)
    (r : CallResult) : countPostStarts (postCall mw call cb r).1 = 1 := by
  obtain ⟨tl, htl, hsh⟩ := postCall_decomp mw call cb r
  have h0 : countPostStarts tl = 0 := countPostStarts_eq_zero (by
    intro ev hev
    rcases hsh ev hev with ⟨j, rfl⟩ | ⟨md, rfl⟩ | rfl <;> rfl)
  rw [htl, countPostStarts_cons_postStart, h0]

/-- Every event of the pre-call loop is a preHandler event. -/
theorem runPre_shape (hs : List PreHandler) (i : Nat) :
    ∀ ev ∈ (runPre hs i).1, ∃ j, ev = Event.preHandler j := by
  rw [runPre_char]
  intro ev hev
  obtain ⟨j, _, rfl⟩ := List.mem_map.1 hev
  exact ⟨i + j, rfl⟩

/-- The pre-call loop never enters post-call processing. -/
theorem countPostStarts_runPre (hs : List PreHandler) (i : Nat) :
    countPostStarts (runPre hs i).1 = 0 := by
  apply countPostStarts_eq_zero
  intro ev hev
  obtain ⟨j, rfl⟩ := runPre_shape hs i ev hev
  rfl

/-- Unfolding equation of runCallbacks on the empty action list. -/
theorem runCallbacks_nil (mw : GrpcMiddleware) (call : Call) (cb : Bool) :
    runCallbacks mw call cb [] = ([], false, none) := rfl

/-- Unfolding equation of runCallbacks on a non-empty action list. -/
theorem runCallbacks_cons (mw : GrpcMiddleware) (call : Call) (cb : Bool)
    (r : CallResult) (rest : List CallResult) :
    runCallbacks mw call cb (r :: rest) =
      match postCall mw call cb r with
      | (evs, some e) => (evs, true, some e)
      | (evs, none) =>
        match runCallbacks mw call cb rest with
        | (evs2, _, exc) => (evs ++ evs2, true, exc) := rfl

/-- Every event of runCallbacks belongs to some postCall pass. -/
theorem runCallbacks_mem (mw : GrpcMiddleware) (call : Call) (cb : Bool) :
    ∀ acts ev, ev ∈ (runCallbacks mw call cb acts).1 →
      ∃ r, ev ∈ (postCall mw call cb r).1 := by
  intro acts
  induction acts with
  | nil =>
    intro ev hev
    rw [runCallbacks_nil] at hev
    simp at hev
  | cons r rest ih =>
    intro ev hev
    rw [runCallbacks_cons] at hev
    rcases hpc : postCall mw call cb r with ⟨evs, exc⟩
    rw [hpc] at hev
    cases exc with
    | some e =>
      simp at hev
      exact ⟨r, by rw [hpc]; exact hev⟩
    | none =>
      rcases hrc : runCallbacks mw call cb rest with ⟨evs2, inv2, exc2⟩
      rw [hrc] at hev
      simp at hev
      rcases hev with hev | hev
      · exact ⟨r, by rw [hpc]; exact hev⟩
      · exact ih ev (by rw [hrc]; exact hev)

/-- When no post-call handler ever throws, runCallbacks performs one full
postCall pass per callback invocation: no exception propagates, the latch
ends true exactly when at least one invocation happened, and post-call
processing is entered once per invocation. -/
theorem runCallbacks_count (mw : GrpcMiddleware) (call : Call) (cb : Bool)
    (hok : ∀ err, firstThrowPost (mw.postMiddleware.getD []) err = none) :
    ∀ acts, countPostStarts (runCallbacks mw call cb acts).1 = acts.length ∧
      (runCallbacks mw call cb acts).2.2 = none ∧
      (runCallbacks mw call cb acts).2.1 = !acts.isEmpty := by
  intro acts
  induction acts with
  | nil => rw [runCallbacks_nil]; simp [countPostStarts]
  | cons r rest ih =>
    rcases hpc : postCall mw call cb r with ⟨evs, exc⟩
    have hexc : exc = none := by
      have h2 : (postCall mw call cb r).2 = none := by
        rw [postCall_ok mw call cb r (hok r.error)]
      rw [hpc] at h2
      exact h2
    subst hexc
    rcases hrc : runCallbacks mw call cb rest with ⟨evs2, inv2, exc2⟩
    have heq : runCallbacks mw call cb (r :: rest) = (evs ++ evs2, true, exc2) := by
      rw [runCallbacks_cons, hpc, hrc]
    rw [heq]
    rw [hrc] at ih
    have hevs : countPostStarts evs = 1 := by
      have := countPostStarts_postCall mw call cb r
      rw [hpc] at this
      exact this
    refine ⟨?_, ?_, ?_⟩
    · simp only [countPostStarts_append, hevs]
      have := ih.1
      simp only at this
      rw [this]
      simp [Nat.add_comm]
    · exact ih.2.1
    · simp

/-- postCall with tracing disabled never sends metadata. -/
theorem postCall_noSend (mw : GrpcMiddleware) (call : Call) (cb : Bool) (r : CallResult)
    (h : mw.tracingEnabled = false) :
    ∀ ev ∈ (postCall mw call cb r).1, ev.isSendMetadata = false := by
  intro ev hev
  cases hft : firstThrowPost (mw.postMiddleware.getD []) r.error with
  | some p =>
    rw [postCall_throw mw call cb r p hft] at hev
    rcases List.mem_cons.1 hev with rfl | hev
    · rfl
    · obtain ⟨j, _, rfl⟩ := List.mem_map.1 hev
      rfl
  | none =>
    rw [postCall_ok mw call cb r hft, h] at hev
    rcases List.mem_cons.1 hev with rfl | hev
    · rfl
    · rcases List.mem_append.1 hev with hev | hev
      · rcases List.mem_append.1 hev with hev | hev
        · obtain ⟨j, _, rfl⟩ := List.mem_map.1 hev
          rfl
        · simp at hev
      · have hev' := mem_ite_nil hev
        simp at hev'
        subst hev'
        rfl

/-- proxyCall when some pre-call handler throws: the pre-call handlers up
to and including the throwing one run, then a single postCall pass runs
with the caught error and a null value; its events and its escaping
exception are those of the whole proxyCall (the implementation is never
invoked). -/
theorem proxyCall_preThrow (mw : GrpcMiddleware) (call : Call) (cb : Bool)
    (impl : ImplBehavior) (k : Nat) (e : Err)
    (h : firstThrow (mw.preMiddleware.getD []) = some (k, e)) :
    proxyCall mw call cb impl =
      ((List.range (k + 1)).map (fun j => Event.preHandler j) ++
        (postCall mw call cb ⟨some e, none, none, none⟩).1,
        (postCall mw call cb ⟨some e, none, none, none⟩).2) := by
  unfold proxyCall
  rw [runPre_char, h]
  rcases hpc : postCall mw call cb ⟨some e, none, none, none⟩ with ⟨pEvs, pExc⟩
  simp [preStopLen, h, hpc]

/-- proxyCall when no pre-call handler throws: all pre-call handlers run,
the implementation is invoked, and the rest of the call is determined by
the callback invocations of the implementation and its final outcome. -/
theorem proxyCall_pre_ok (mw : GrpcMiddleware) (call : Call) (cb : Bool)
    (impl : ImplBehavior)
    (h : firstThrow (mw.preMiddleware.getD []) = none) :
    proxyCall mw call cb impl =
      ((List.range (mw.preMiddleware.getD []).length).map (fun j => Event.preHandler j) ++
         Event.implStart ::
           (match runCallbacks mw call cb impl.actions with
            | (bodyEvs, _, some _) => bodyEvs
            | (bodyEvs, invoked, none) =>
              match impl.finalThrow with
              | none => bodyEvs
              | some e =>
                if invoked then bodyEvs
                else bodyEvs ++ (postCall mw call cb ⟨some e, none, none, none⟩).1),
       (match runCallbacks mw call cb impl.actions with
        | (_, _, some _) => none
        | (_, invoked, none) =>
          match impl.finalThrow with
          | none => none
          | some e =>
            if invoked then none
            else (postCall mw call cb ⟨some e, none, none, none⟩).2)) := by
  unfold proxyCall
  rw [runPre_char, h]
  rcases hrc : runCallbacks mw call cb impl.actions with ⟨bodyEvs, invoked, exc⟩
  cases exc with
  | some e2 => simp [preStopLen, h, hrc]
  | none =>
    cases hft : impl.finalThrow with
    | none => simp [preStopLen, h, hrc, hft]
    | some e =>
      cases invoked with
      | true => simp [preStopLen, h, hrc, hft]
      | false =>
        rcases hpc : postCall mw call cb ⟨some e, none, none, none⟩ with ⟨pEvs, pExc⟩
        simp [preStopLen, h, hrc, hft, hpc]

/-- proxyCall with tracing disabled never sends metadata. -/
theorem proxyCall_noSend (mw : GrpcMiddleware) (call : Call) (cb : Bool)
    (impl : ImplBehavior) (h : mw.tracingEnabled = false) :
    ∀ ev ∈ (proxyCall mw call cb impl).1, ev.isSendMetadata = false := by
  intro ev hev
  rcases hpre : firstThrow (mw.preMiddleware.getD []) with _ | ⟨k, e⟩
  · rw [proxyCall_pre_ok mw call cb impl hpre] at hev
    rcases List.mem_append.1 hev with hev | hev
    · obtain ⟨j, _, rfl⟩ := List.mem_map.1 hev
      rfl
    · rcases List.mem_cons.1 hev with rfl | hev
      · rfl
      · rcases hrc : runCallbacks mw call cb impl.actions with ⟨bodyEvs, invoked, exc⟩
        rw [hrc] at hev
        cases exc with
        | some e2 =>
          simp only at hev
          obtain ⟨r, hr⟩ := runCallbacks_mem mw call cb impl.actions ev (by rw [hrc]; exact hev)
          exact postCall_noSend mw call cb r h ev hr
        | none =>
          cases hft : impl.finalThrow with
          | none =>
            rw [hft] at hev
            simp only at hev
            obtain ⟨r, hr⟩ := runCallbacks_mem mw call cb impl.actions ev (by rw [hrc]; exact hev)
            exact postCall_noSend mw call cb r h ev hr
          | some e3 =>
            rw [hft] at hev
            cases invoked with
            | true =>
              simp only [if_true] at hev
              obtain ⟨r, hr⟩ := runCallbacks_mem mw call cb impl.actions ev (by rw [hrc]; exact hev)
              exact postCall_noSend mw call cb r h ev hr
            | false =>
              simp only [if_false] at hev
              rcases List.mem_append.1 hev with hev | hev
              · obtain ⟨r, hr⟩ := runCallbacks_mem mw call cb impl.actions ev (by rw [hrc]; exact hev)
                exact postCall_noSend mw call cb r h ev hr
              · exact postCall_noSend mw call cb _ h ev hev
  · rw [proxyCall_preThrow mw call cb impl k e hpre] at hev
    rcases List.mem_append.1 hev with hev | hev
    · obtain ⟨j, _, rfl⟩ := List.mem_map.1 hev
      rfl
    · exact postCall_noSend mw call cb _ h ev hev

/-- Shared helper for the callback-forwarding claims: when no post-call
handler throws, the postCall pass invokes the original callback exactly
once, with exactly the call result it received. -/
theorem postCall_filter_orig (mw : GrpcMiddleware) (call : Call) (r : CallResult)
    (hpost : firstThrowPost (mw.postMiddleware.getD []) r.error = none) :
    (postCall mw call true r).1.filter Event.isOrigCallback = [Event.origCallback r] := by
  rw [postCall_ok mw call true r hpost]
  have h1 : ((List.range (mw.postMiddleware.getD []).length).map
      (fun j => Event.postHandler j r.error)).filter Event.isOrigCallback = [] := by
    rw [List.filter_eq_nil_iff]
    intro a ha
    obtain ⟨j, _, rfl⟩ := List.mem_map.1 ha
    simp [Event.isOrigCallback]
  have h2 : ((if mw.tracingEnabled then propagateTracingHeaders call else
      []) : List Event).filter Event.isOrigCallback = [] := by
    rw [List.filter_eq_nil_iff]
    intro a ha
    obtain ⟨md, rfl⟩ := propagate_shape call a (mem_ite_nil ha)
    simp [Event.isOrigCallback]
  have hps : Event.isOrigCallback (Event.postStart r.error r.value) = false := rfl
  have hoc : Event.isOrigCallback (Event.origCallback r) = true := rfl
  simp [List.filter_cons, List.filter_append, hps, hoc, h1, h2]

/-- C1: the claim states that only inbound metadata keys exactly equal to
one of the seven allow-listed tracing header names are ever copied to the
outbound metadata.  The code violates this: tracingHeaders is a numeric
TypeScript enum, so Object.keys(tracingHeaders) also contains the
reverse-mapping keys "0".."6", and an inbound metadata key "0" is relayed
even though it is not one of the seven header names.  This theorem
evaluates the embedded code at that failing input: with tracing enabled
and inbound metadata holding only the key "0", the relay sends outbound
metadata containing the key "0", which is not among the seven names. -/
theorem c1_numeric_enum_key_relayed :
    propagateTracingHeaders ⟨some ⟨[("0", ["v"])]⟩, false⟩ =
      [Event.sendMetadata ⟨[("0", ["v"])]⟩] ∧
    postCall (enableTracing (mkGrpcMiddleware none none))
        ⟨some ⟨[("0", ["v"])]⟩, false⟩ true ⟨none, none, none, none⟩ =
      ([Event.postStart none none, Event.sendMetadata ⟨[("0", ["v"])]⟩,
        Event.origCallback ⟨none, none, none, none⟩], none) ∧
    "0" ∉ sevenTracingHeaderNames := by
  refine ⟨rfl, rfl, ?_⟩
  decide

/-- C2: under the precondition that the implementation invokes its
completion callback at most once, every terminating call path (a pre-call
or synchronous-invocation exception, or a completed callback) enters
post-call processing exactly once: the latch prevents a second pass when
an exception follows a completed callback, and an exception before any
callback triggers exactly one pass. -/
theorem c2_post_once (mw : GrpcMiddleware) (call : Call) (cb : Bool) (impl : ImplBehavior)
    (hone : impl.actions.length ≤ 1)
    (hterm : firstThrow (mw.preMiddleware.getD []) ≠ none ∨ impl.actions ≠ [] ∨
      impl.finalThrow ≠ none) :
    countPostStarts (proxyCall mw call cb impl).1 = 1 := by
  have hmapPre : ∀ n : Nat, countPostStarts
      ((List.range n).map (fun j => Event.preHandler j)) = 0 := by
    intro n
    apply countPostStarts_eq_zero
    intro ev hev
    obtain ⟨j, _, rfl⟩ := List.mem_map.1 hev
    rfl
  rcases hpre : firstThrow (mw.preMiddleware.getD []) with _ | ⟨k, e⟩
  · rw [proxyCall_pre_ok mw call cb impl hpre, countPostStarts_append,
      countPostStarts_cons_ne Event.implStart _ rfl, hmapPre, Nat.zero_add]
    cases hacts : impl.actions with
    | nil =>
      rw [runCallbacks_nil]
      cases hft : impl.finalThrow with
      | none =>
        exfalso
        rcases hterm with h | h | h
        · exact h hpre
        · exact h hacts
        · exact h hft
      | some e2 =>
        have h1 := countPostStarts_postCall mw call cb ⟨some e2, none, none, none⟩
        simpa [countPostStarts_append, countPostStarts] using h1
    | cons r rest =>
      have hrest : rest = [] := by
        rw [hacts] at hone
        simpa using hone
      subst hrest
      rw [runCallbacks_cons]
      rcases hpc : postCall mw call cb r with ⟨evs, exc⟩
      have hevs : countPostStarts evs = 1 := by
        have h1 := countPostStarts_postCall mw call cb r
        rw [hpc] at h1
        exact h1
      cases exc with
      | some e2 => simpa using hevs
      | none =>
        rw [runCallbacks_nil]
        cases hft : impl.finalThrow with
        | none => simpa [countPostStarts_append, countPostStarts] using hevs
        | some e2 => simpa [countPostStarts_append, countPostStarts] using hevs
  · rw [proxyCall_preThrow mw call cb impl k e hpre, countPostStarts_append,
      countPostStarts_postCall, hmapPre]

/-- Closed instance of c2_post_once: one pre-call handler, one post-call
handler, a single callback invocation; post-call processing is entered
exactly once. -/
theorem c2_post_once_witness :
    countPostStarts (proxyCall ⟨some [⟨none⟩], some [⟨fun _ => none⟩], false⟩
      ⟨none, false⟩ true ⟨[⟨none, some 5, none, none⟩], none⟩).1 = 1 :=
  c2_post_once _ _ _ _ (by decide) (Or.inr (Or.inl (by decide)))

/-- C3: when a pre-call handler raises, the handlers after it do not run,
the implementation is never invoked, the exception does not escape the
proxy (given that the post-call handlers return normally), and post-call
processing runs with the raised error and a null value. -/
theorem c3_pre_abort (mw : GrpcMiddleware) (call : Call) (cb : Bool) (impl : ImplBehavior)
    (k : Nat) (e : Err)
    (hpre : firstThrow (mw.preMiddleware.getD []) = some (k, e))
    (hpost : firstThrowPost (mw.postMiddleware.getD []) (some e) = none) :
    (∀ j, Event.preHandler j ∈ (proxyCall mw call cb impl).1 ↔ j ≤ k) ∧
    Event.implStart ∉ (proxyCall mw call cb impl).1 ∧
    (proxyCall mw call cb impl).2 = none ∧
    Event.postStart (some e) none ∈ (proxyCall mw call cb impl).1 := by
  rw [proxyCall_preThrow mw call cb impl k e hpre]
  obtain ⟨tl, htl, hsh⟩ := postCall_decomp mw call cb ⟨some e, none, none, none⟩
  refine ⟨?_, ?_, ?_, ?_⟩
  · intro j
    constructor
    · intro hj
      rcases List.mem_append.1 hj with h | h
      · obtain ⟨j2, hj2, hinj⟩ := List.mem_map.1 h
        rw [Event.preHandler.injEq] at hinj
        subst hinj
        have := List.mem_range.1 hj2
        omega
      · rw [htl] at h
        rcases List.mem_cons.1 h with hh | hh
        · simp at hh
        · rcases hsh _ hh with ⟨j2, habs⟩ | ⟨md, habs⟩ | habs <;> simp at habs
    · intro hj
      exact List.mem_append.2 (Or.inl (List.mem_map.2 ⟨j, List.mem_range.2 (by omega), rfl⟩))
  · intro habs
    rcases List.mem_append.1 habs with h | h
    · obtain ⟨j, _, hinj⟩ := List.mem_map.1 h
      simp at hinj
    · rw [htl] at h
      rcases List.mem_cons.1 h with hh | hh
      · simp at hh
      · rcases hsh _ hh with ⟨j2, habs2⟩ | ⟨md, habs2⟩ | habs2 <;> simp at habs2
  · rw [postCall_ok mw call cb _ hpost]
  · refine List.mem_append.2 (Or.inr ?_)
    rw [htl]
    exact List.mem_cons_self _ _

/-- Closed instance of c3_pre_abort: the single pre-call handler throws
error 3; the implementation never starts, nothing escapes the proxy, and
the post-call pass observes error 3 with a null value. -/
theorem c3_pre_abort_witness :
    Event.implStart ∉ (proxyCall ⟨some [⟨some 3⟩], some [⟨fun _ => none⟩], true⟩
      ⟨none, false⟩ true ⟨[], none⟩).1 ∧
    (proxyCall ⟨some [⟨some 3⟩], some [⟨fun _ => none⟩], true⟩
      ⟨none, false⟩ true ⟨[], none⟩).2 = none ∧
    Event.postStart (some 3) none ∈ (proxyCall ⟨some [⟨some 3⟩], some [⟨fun _ => none⟩], true⟩
      ⟨none, false⟩ true ⟨[], none⟩).1 ∧
    (Event.preHandler 0 ∈ (proxyCall ⟨some [⟨some 3⟩], some [⟨fun _ => none⟩], true⟩
      ⟨none, false⟩ true ⟨[], none⟩).1 ↔ 0 ≤ 0) := by
  have h := c3_pre_abort ⟨some [⟨some 3⟩], some [⟨fun _ => none⟩], true⟩
    ⟨none, false⟩ true ⟨[], none⟩ 0 3 rfl rfl
  exact ⟨h.2.1, h.2.2.1, h.2.2.2, h.1 0⟩

/-- C4: when the substituted callback fires with (error, value, trailer,
flags) and the post-call handler chain completes, the original callback is
invoked exactly once, with exactly the same four arguments, unmodified by
the handler chain and the tracing relay, and nothing escapes the pass. -/
theorem c4_callback_unmodified (mw : GrpcMiddleware) (call : Call) (r : CallResult)
    (hpost : firstThrowPost (mw.postMiddleware.getD []) r.error = none) :
    (postCall mw call true r).1.filter Event.isOrigCallback = [Event.origCallback r] ∧
    (postCall mw call true r).2 = none := by
  refine ⟨postCall_filter_orig mw call r hpost, ?_⟩
  rw [postCall_ok mw call true r hpost]

/-- Closed instance of c4_callback_unmodified: with tracing enabled and a
non-trivial result, the original callback receives exactly that result. -/
theorem c4_callback_unmodified_witness :
    (postCall ⟨none, some [⟨fun _ => none⟩], true⟩
        ⟨some ⟨[("x-b3-traceid", ["abc"])]⟩, false⟩ true
        ⟨some 2, some 7, none, some 1⟩).1.filter Event.isOrigCallback =
      [Event.origCallback ⟨some 2, some 7, none, some 1⟩] ∧
    (postCall ⟨none, some [⟨fun _ => none⟩], true⟩
        ⟨some ⟨[("x-b3-traceid", ["abc"])]⟩, false⟩ true
        ⟨some 2, some 7, none, some 1⟩).2 = none :=
  c4_callback_unmodified _ _ _ rfl

/-- C5: when the tracing relay raises internally (absent entries with a
matching key, or a failing sendMetadata), the error is suppressed: nothing
escapes postCall and the original callback is still invoked exactly once
with the unmodified implementation result. -/
theorem c5_relay_error_suppressed (mw : GrpcMiddleware) (call : Call) (r : CallResult)
    (hrelay : relayRaises call = true)
    (hpost : firstThrowPost (mw.postMiddleware.getD []) r.error = none) :
    (postCall mw call true r).2 = none ∧
    (postCall mw call true r).1.filter Event.isOrigCallback = [Event.origCallback r] := by
  refine ⟨?_, postCall_filter_orig mw call r hpost⟩
  rw [postCall_ok mw call true r hpost]

/-- Closed instance of c5_relay_error_suppressed: the sendMetadata call of
this Call fails, yet the pass completes and forwards the result. -/
theorem c5_relay_error_suppressed_witness :
    (postCall ⟨none, some [⟨fun _ => none⟩], true⟩
        ⟨some ⟨[("x-b3-traceid", ["abc"])]⟩, true⟩ true
        ⟨none, some 4, none, none⟩).2 = none ∧
    (postCall ⟨none, some [⟨fun _ => none⟩], true⟩
        ⟨some ⟨[("x-b3-traceid", ["abc"])]⟩, true⟩ true
        ⟨none, some 4, none, none⟩).1.filter Event.isOrigCallback =
      [Event.origCallback ⟨none, some 4, none, none⟩] :=
  c5_relay_error_suppressed _ _ _ (by decide) rfl

/-- C6: with the handler lists supplied at construction, the pre-call
handlers run strictly in list order before the implementation starts, and
after the completion callback fires the post-call handlers run strictly in
list order before the original callback is invoked; none is skipped and
none is reordered (stated as the full event trace of a call whose
implementation completes once and whose handlers return normally). -/
theorem c6_handler_order (preHs : List PreHandler) (postHs : List PostHandler) (tr : Bool)
    (call : Call) (cb : Bool) (r : CallResult)
    (hpre : firstThrow preHs = none)
    (hpost : firstThrowPost postHs r.error = none) :
    proxyCall ⟨some preHs, some postHs, tr⟩ call cb ⟨[r], none⟩ =
      ((List.range preHs.length).map (fun j => Event.preHandler j) ++
        Event.implStart :: Event.postStart r.error r.value ::
          ((List.range postHs.length).map (fun j => Event.postHandler j r.error) ++
            (if tr then propagateTracingHeaders call else []) ++
            (if cb then [Event.origCallback r] else [])),
        none) := by
  have hpre2 : firstThrow
      ((⟨some preHs, some postHs, tr⟩ : GrpcMiddleware).preMiddleware.getD []) = none := by
    simpa using hpre
  have hpost2 : firstThrowPost
      ((⟨some preHs, some postHs, tr⟩ : GrpcMiddleware).postMiddleware.getD [])
      r.error = none := by
    simpa using hpost
  rw [proxyCall_pre_ok _ call cb _ hpre2]
  rw [show (⟨[r], none⟩ : ImplBehavior).actions = [r] from rfl, runCallbacks_cons,
    postCall_ok _ call cb r hpost2, runCallbacks_nil]
  simp

/-- Closed instance of c6_handler_order: two pre-call handlers, two
post-call handlers, tracing enabled, a metadata map with one allow-listed
and one foreign key; the full event trace is in construction order. -/
theorem c6_handler_order_witness :
    proxyCall ⟨some [⟨none⟩, ⟨none⟩], some [⟨fun _ => none⟩, ⟨fun _ => none⟩], true⟩
      ⟨some ⟨[("x-b3-traceid", ["abc"]), ("x-custom", ["zzz"])]⟩, false⟩ true
      ⟨[⟨none, some 9, none, none⟩], none⟩ =
    ((List.range 2).map (fun j => Event.preHandler j) ++
      Event.implStart :: Event.postStart none (some 9) ::
        ((List.range 2).map (fun j => Event.postHandler j none) ++
          (if true then propagateTracingHeaders
            ⟨some ⟨[("x-b3-traceid", ["abc"]), ("x-custom", ["zzz"])]⟩, false⟩ else []) ++
          (if true then [Event.origCallback ⟨none, some 9, none, none⟩] else [])),
      none) :=
  c6_handler_order [⟨none⟩, ⟨none⟩] [⟨fun _ => none⟩, ⟨fun _ => none⟩] true
    ⟨some ⟨[("x-b3-traceid", ["abc"]), ("x-custom", ["zzz"])]⟩, false⟩ true
    ⟨none, some 9, none, none⟩ rfl rfl

/-- C7: when an allow-listed inbound key carries multiple values, only the
first value is copied into the freshly built outbound metadata; the later
values are dropped. -/
theorem c7_first_value_only (k v : String) (vs : List String) (b : Bool)
    (hk : 1 ≤ (objectKeysTracingHeaders.filter (fun h => h = k)).length) :
    propagateTracingHeaders ⟨some ⟨[(k, v :: vs)]⟩, b⟩ =
      [Event.sendMetadata ⟨[(k, [v])]⟩] := by
  have hre : relayEntries [(k, v :: vs)] = some [(k, [v])] := by
    unfold relayEntries
    rw [if_pos hk]
    rfl
  unfold propagateTracingHeaders
  simp [hre]

/-- Closed instance of c7_first_value_only, the example of the spec:
inbound x-b3-spanid carrying 111 and 222 relays only 111. -/
theorem c7_first_value_only_witness :
    propagateTracingHeaders ⟨some ⟨[("x-b3-spanid", ["111", "222"])]⟩, false⟩ =
      [Event.sendMetadata ⟨[("x-b3-spanid", ["111"])]⟩] :=
  c7_first_value_only "x-b3-spanid" "111" ["222"] false (by decide)

/-- C8: enableTracing is idempotent, the flag defaults to disabled at
construction (and then no call ever sends metadata), and enableTracing
sets the flag, which no operation unsets (enableTracing is the only
operation touching it and it writes true). -/
theorem c8_enable_tracing (pre : Option (List PreHandler)) (post : Option (List PostHandler))
    (st : GrpcMiddleware) (call : Call) (cb : Bool) (impl : ImplBehavior) :
    enableTracing (enableTracing st) = enableTracing st ∧
    (mkGrpcMiddleware pre post).tracingEnabled = false ∧
    (enableTracing st).tracingEnabled = true ∧
    ((proxyCall (mkGrpcMiddleware pre post) call cb impl).1.all
      (fun ev => !ev.isSendMetadata)) = true := by
  refine ⟨rfl, rfl, rfl, ?_⟩
  rw [List.all_eq_true]
  intro ev hev
  have h := proxyCall_noSend (mkGrpcMiddleware pre post) call cb impl rfl ev hev
  simp [h]

/-- C9: the latch does not deduplicate repeated callback invocations: when
the implementation invokes the substituted callback more than once (and no
handler throws), post-call processing runs once per invocation. -/
theorem c9_no_latch_dedup (mw : GrpcMiddleware) (call : Call) (cb : Bool)
    (impl : ImplBehavior)
    (hpre : firstThrow (mw.preMiddleware.getD []) = none)
    (hpost : ∀ err, firstThrowPost (mw.postMiddleware.getD []) err = none)
    (hmulti : 2 ≤ impl.actions.length) :
    countPostStarts (proxyCall mw call cb impl).1 = impl.actions.length := by
  rw [proxyCall_pre_ok mw call cb impl hpre]
  obtain ⟨hcount, hexc, hinv⟩ := runCallbacks_count mw call cb hpost impl.actions
  rcases hrc : runCallbacks mw call cb impl.actions with ⟨bodyEvs, invoked, exc⟩
  rw [hrc] at hcount hexc hinv
  simp only at hcount hexc hinv
  subst hexc
  have hne : impl.actions ≠ [] := by
    intro h
    rw [h] at hmulti
    simp at hmulti
  have hinv2 : invoked = true := by
    rw [hinv]
    cases hacts : impl.actions with
    | nil => exact absurd hacts hne
    | cons a l => rfl
  subst hinv2
  rw [countPostStarts_append, countPostStarts_cons_ne Event.implStart _ rfl]
  have hmap0 : countPostStarts
      ((List.range (mw.preMiddleware.getD []).length).map (fun j => Event.preHandler j)) = 0 :=
    countPostStarts_eq_zero (by
      intro ev hev
      obtain ⟨j, _, rfl⟩ := List.mem_map.1 hev
      rfl)
  rw [hmap0, Nat.zero_add]
  cases hft : impl.finalThrow with
  | none => simpa using hcount
  | some e => simpa using hcount

/-- Closed instance of c9_no_latch_dedup: two callback invocations yield
two post-call passes. -/
theorem c9_no_latch_dedup_witness :
    countPostStarts (proxyCall ⟨some [], some [⟨fun _ => none⟩], false⟩ ⟨none, false⟩ true
      ⟨[⟨none, some 1, none, none⟩, ⟨none, some 2, none, none⟩], none⟩).1 = 2 :=
  c9_no_latch_dedup _ _ _ _ rfl (fun _ => rfl) (by decide)

/-- C10: when a post-call handler raises during a pass, the rest of that
pass does not run: no metadata is sent and the original callback is not
invoked from that pass, the exception escapes postCall, and when the pass
was entered from the synchronous callback inside proxyCall the escaping
exception is swallowed there because the latch is already set. -/
theorem c10_posthandler_exception (mw : GrpcMiddleware) (call : Call) (cb : Bool)
    (r : CallResult) (impl : ImplBehavior) (k : Nat) (e : Err)
    (hpost : firstThrowPost (mw.postMiddleware.getD []) r.error = some (k, e))
    (hpre : firstThrow (mw.preMiddleware.getD []) = none)
    (himpl : impl.actions = [r]) :
    (postCall mw call cb r).2 = some e ∧
    ((postCall mw call cb r).1.all fun ev => !ev.isSendMetadata && !ev.isOrigCallback) = true ∧
    (proxyCall mw call cb impl).2 = none := by
  refine ⟨?_, ?_, ?_⟩
  · rw [postCall_throw mw call cb r (k, e) hpost]
  · rw [postCall_throw mw call cb r (k, e) hpost, List.all_eq_true]
    intro ev hev
    rcases List.mem_cons.1 hev with rfl | hev
    · rfl
    · obtain ⟨j, _, rfl⟩ := List.mem_map.1 hev
      rfl
  · rw [proxyCall_pre_ok mw call cb impl hpre, himpl, runCallbacks_cons,
      postCall_throw mw call cb r (k, e) hpost]

/-- Closed instance of c10_posthandler_exception: the single post-call
handler throws error 7; the pass aborts with error 7 (no send, no original
callback) and proxyCall swallows it. -/
theorem c10_posthandler_exception_witness :
    (postCall ⟨some [], some [⟨fun _ => some 7⟩], true⟩
        ⟨some ⟨[("x-b3-traceid", ["abc"])]⟩, false⟩ true
        ⟨none, some 3, none, none⟩).2 = some 7 ∧
    ((postCall ⟨some [], some [⟨fun _ => some 7⟩], true⟩
        ⟨some ⟨[("x-b3-traceid", ["abc"])]⟩, false⟩ true
        ⟨none, some 3, none, none⟩).1.all
      fun ev => !ev.isSendMetadata && !ev.isOrigCallback) = true ∧
    (proxyCall ⟨some [], some [⟨fun _ => some 7⟩], true⟩
        ⟨some ⟨[("x-b3-traceid", ["abc"])]⟩, false⟩ true
        ⟨[⟨none, some 3, none, none⟩], none⟩).2 = none :=
  c10_posthandler_exception ⟨some [], some [⟨fun _ => some 7⟩], true⟩
    ⟨some ⟨[("x-b3-traceid", ["abc"])]⟩, false⟩ true
    ⟨none, some 3, none, none⟩ ⟨[⟨none, some 3, none, none⟩], none⟩ 0 7 rfl rfl rfl

end GrpcTsMiddleware
